import Mathlib

/-!
Verification development for `historical_data_fetcher.py`
(class `BinanceHistoricalFetcher`).

Shallow embedding conventions:
* Instants are epoch milliseconds, modelled as `Nat` (the code converts to
  `int(ts * 1000)` and advances by `timedelta(milliseconds=1)`, i.e. by 1).
* Decimal columns (prices, volumes, rates) are modelled as `Int`; none of
  the verified properties touches their arithmetic, only the primary time
  fields are compared.
* The HTTP layer is abstracted: a page source is a function from the
  request's startTime cursor to the outcome of one batch call.  A batch
  call outcome is `Option (List record)`: `none` models the Python
  function returning `None` (raised `RequestException` caught, or an
  empty JSON body), `some page` models a returned DataFrame with the
  parsed rows in order.
* File I/O is abstracted: the existing CSV (if any) is the `existing`
  argument, and every `to_csv` write is recorded in a `persists` trace.
* `pandas` operations used by the code:
  `drop_duplicates(subset=[k])` keeps the first occurrence of each key,
  preserving order — embedded as `dropDuplicatesBy`;
  `sort_values(k)` sorts ascending by the key — embedded as `sortBy`
  (the key is unique after the dedup, so sort stability is irrelevant);
  `df[k].max()` — embedded as `pageMax`;
  `pd.concat(frames)` — embedded as `List.flatten` of the frame list.
-/

namespace Fetcher

/-- One kline row after `fetch_klines_batch` parsing: the 12 raw columns
with the `ignore` column dropped.  `open_time`/`close_time` are epoch ms. -/
structure BarRecord where
  open_time : Nat
  open_ : Int
  high : Int
  low : Int
  close : Int
  volume : Int
  close_time : Nat
  quote_volume : Int
  trades : Nat
  taker_buy_base : Int
  taker_buy_quote : Int
deriving DecidableEq, Repr

/-- One funding-rate row after `fetch_funding_rates_batch` parsing:
the `fundingTime`/`fundingRate` column pair selected by the code. -/
structure FundingRecord where
  fundingTime : Nat
  fundingRate : Int
deriving DecidableEq, Repr

/-- One raw kline tuple as returned by the provider's /klines endpoint:
the 12 columns named in `fetch_klines_batch`, in order. -/
structure RawKline where
  open_time : Nat
  open_ : Int
  high : Int
  low : Int
  close : Int
  volume : Int
  close_time : Nat
  quote_volume : Int
  trades : Nat
  taker_buy_base : Int
  taker_buy_quote : Int
  ignore : Int
deriving DecidableEq, Repr

/-- One raw funding-rate object as returned by the /fundingRate endpoint
(the symbol string is abstracted as a numeric id; the code discards it). -/
structure RawFunding where
  symbol : Nat
  fundingTime : Nat
  fundingRate : Int
  markPrice : Int
deriving DecidableEq, Repr

/-- Outcome of the one HTTP round trip inside a batch fetcher: `failure`
covers everything `requests` raises and the code catches (timeout,
connection error, non-2xx via raise_for_status, unparseable JSON body),
`ok body` is a decoded 2xx response body. -/
inductive HttpOutcome (β : Type) where
  | failure
  | ok (body : β)
deriving DecidableEq, Repr

/-- Column projection done by `fetch_klines_batch`: drop the `ignore`
column, keep the rest (datetime conversion keeps the ms value). -/
def rawToBar (k : RawKline) : BarRecord :=
  ⟨k.open_time, k.open_, k.high, k.low, k.close, k.volume, k.close_time,
   k.quote_volume, k.trades, k.taker_buy_base, k.taker_buy_quote⟩

/-- Column projection done by `fetch_funding_rates_batch`:
select `fundingTime` and `fundingRate` only. -/
def rawToFunding (r : RawFunding) : FundingRecord :=
  ⟨r.fundingTime, r.fundingRate⟩

/-- `fetch_klines_batch`: on a caught `RequestException` return `None`;
on an empty JSON array (`if not raw`) return `None`; otherwise build the
DataFrame and drop the `ignore` column. -/
def fetch_klines_batch (resp : HttpOutcome (List RawKline)) :
    Option (List BarRecord) :=
  match resp with
  | .failure => none
  | .ok raw => if raw.isEmpty then none else some (raw.map rawToBar)

/-- `fetch_funding_rates_batch`: on a caught `RequestException` return
`None`; on an empty JSON array return `None`; otherwise build the
DataFrame and select the `fundingTime`, `fundingRate` columns. -/
def fetch_funding_rates_batch (resp : HttpOutcome (List RawFunding)) :
    Option (List FundingRecord) :=
  match resp with
  | .failure => none
  | .ok raw => if raw.isEmpty then none else some (raw.map rawToFunding)

variable {α : Type}

/-- `df[k].max()` over a list of records with key `t`
(0 if the list is empty; the code only takes the max of non-empty frames). -/
def pageMax (t : α → Nat) (l : List α) : Nat :=
  (l.map t).foldr Nat.max 0

/-- `drop_duplicates(subset=[k])`: keep the first occurrence of each key
value, preserving the original order. -/
def dropDuplicatesBy (t : α → Nat) : List α → List α
  | [] => []
  | x :: xs => x :: (dropDuplicatesBy t xs).filter (fun y => t y ≠ t x)

/-- Ordered insertion by key `t` (helper for `sortBy`). -/
def insertBy (t : α → Nat) (x : α) : List α → List α
  | [] => [x]
  | y :: ys => if t x ≤ t y then x :: y :: ys else y :: insertBy t x ys

/-- `sort_values(k)`: sort ascending by the key `t`. -/
def sortBy (t : α → Nat) : List α → List α
  | [] => []
  | x :: xs => insertBy t x (sortBy t xs)

/-- One persisted snapshot:
`concat(frames).drop_duplicates(subset=[k]).sort_values(k)` applied to the
flattened accumulation buffer — exactly what both checkpoint saves and the
final save write with `to_csv`. -/
def persistBy (t : α → Nat) (l : List α) : List α :=
  sortBy t (dropDuplicatesBy t l)

/-- The walker's mutable state inside the paging loop:
`all_data` (list of page frames), `current_start`, `total_fetched`. -/
structure WalkerState (α : Type) where
  buffer : List (List α)
  cursor : Nat
  totalFetched : Nat
deriving DecidableEq, Repr

/-- The state update for one non-empty fetched page:
`all_data.append(batch_df)`, `total_fetched += len(batch_df)`,
`current_start = batch_df[k].max() + timedelta(milliseconds=1)`. -/
def stepState (t : α → Nat) (s : WalkerState α) (page : List α) :
    WalkerState α :=
  { buffer := s.buffer ++ [page]
    cursor := pageMax t page + 1
    totalFetched := s.totalFetched + page.length }

/-- The checkpoint decision after appending a page:
`if len(all_data) % 10 == 0:` record a checkpoint persist of the
(just-grown) buffer, else leave the persist trace unchanged. -/
def stepCps (cps : List (List (List α))) (buf : List (List α)) :
    List (List (List α)) :=
  if buf.length % 10 = 0 then cps ++ [buf] else cps

/-- Result of running the paging loop: the final walker state, the
buffers captured at each checkpoint save, and the cursors at which the
page source was invoked (in order). -/
structure RunOutcome (α : Type) where
  final : WalkerState α
  checkpoints : List (List (List α))
  calls : List Nat
deriving DecidableEq, Repr

/-- The `while current_start < end_date` paging loop, fuel-indexed:
`none` means the fuel ran out with the loop condition still true (the
loop would keep running).  One iteration: call the page source at the
cursor; on `None` or an empty frame break; otherwise append the page,
bump the total, advance the cursor past the page max, checkpoint when the
frame count hits a multiple of 10, and break early when the page was
shorter than the 1000-row limit. -/
def walkLoop (t : α → Nat) (src : Nat → Option (List α)) (endDate : Nat) :
    Nat → WalkerState α → List (List (List α)) → List Nat →
    Option (RunOutcome α)
  | 0, s, cps, calls =>
      if s.cursor < endDate then none else some ⟨s, cps, calls⟩
  | fuel + 1, s, cps, calls =>
      if s.cursor < endDate then
        match src s.cursor with
        | none => some ⟨s, cps, calls ++ [s.cursor]⟩
        | some page =>
            if page.isEmpty then some ⟨s, cps, calls ++ [s.cursor]⟩
            else if page.length < 1000 then
              some ⟨stepState t s page, stepCps cps (stepState t s page).buffer,
                    calls ++ [s.cursor]⟩
            else
              walkLoop t src endDate fuel (stepState t s page)
                (stepCps cps (stepState t s page).buffer) (calls ++ [s.cursor])
      else some ⟨s, cps, calls⟩

/-- The RESUMING step: if the dataset file exists, seed the buffer with
the loaded frame and start at its time max plus 1 ms, else start at the
caller's start instant with an empty buffer. -/
def initState (t : α → Nat) (existing : Option (List α)) (startDate : Nat) :
    WalkerState α :=
  match existing with
  | some ex => ⟨[ex], pageMax t ex + 1, 0⟩
  | none => ⟨[], startDate, 0⟩

/-- What one full fetch call produces: the returned dataset (`none` is the
code's `return None` no-data signal), the sequence of datasets written to
the CSV file (checkpoints then final save), and the page-source call
trace. -/
structure FetchResult (α : Type) where
  dataset : Option (List α)
  persists : List (List α)
  calls : List Nat
deriving DecidableEq, Repr

/-- The generic shape shared by `fetch_historical_klines` and
`fetch_historical_funding_rates`: resume, page, then `if all_data:` do the
final dedup-sort save and return it, else return the no-data signal. -/
def fetchHistorical (t : α → Nat) (src : Nat → Option (List α))
    (existing : Option (List α)) (startDate endDate fuel : Nat) :
    Option (FetchResult α) :=
  match walkLoop t src endDate fuel (initState t existing startDate) [] [] with
  | none => none
  | some out =>
      if out.final.buffer.isEmpty then
        some ⟨none, out.checkpoints.map (fun b => persistBy t b.flatten),
              out.calls⟩
      else
        some ⟨some (persistBy t out.final.buffer.flatten),
              out.checkpoints.map (fun b => persistBy t b.flatten)
                ++ [persistBy t out.final.buffer.flatten],
              out.calls⟩

/-- `fetch_historical_klines` paging loop, written out over `BarRecord`
with the `open_time` primary key, mirroring lines 144–178 of the source. -/
def klinesWalkLoop (src : Nat → Option (List BarRecord)) (endDate : Nat) :
    Nat → WalkerState BarRecord → List (List (List BarRecord)) → List Nat →
    Option (RunOutcome BarRecord)
  | 0, s, cps, calls =>
      if s.cursor < endDate then none else some ⟨s, cps, calls⟩
  | fuel + 1, s, cps, calls =>
      if s.cursor < endDate then
        match src s.cursor with
        | none => some ⟨s, cps, calls ++ [s.cursor]⟩
        | some page =>
            if page.isEmpty then some ⟨s, cps, calls ++ [s.cursor]⟩
            else if page.length < 1000 then
              some ⟨stepState (fun r => r.open_time) s page,
                    stepCps cps (stepState (fun r => r.open_time) s page).buffer,
                    calls ++ [s.cursor]⟩
            else
              klinesWalkLoop src endDate fuel
                (stepState (fun r => r.open_time) s page)
                (stepCps cps (stepState (fun r => r.open_time) s page).buffer)
                (calls ++ [s.cursor])
      else some ⟨s, cps, calls⟩

/-- `fetch_historical_klines`: resume from the existing CSV (lines
130–141), run the paging loop, final save / no-data return (181–189). -/
def fetch_historical_klines (src : Nat → Option (List BarRecord))
    (existing : Option (List BarRecord)) (startDate endDate fuel : Nat) :
    Option (FetchResult BarRecord) :=
  let s0 : WalkerState BarRecord :=
    match existing with
    | some ex => ⟨[ex], pageMax (fun r => r.open_time) ex + 1, 0⟩
    | none => ⟨[], startDate, 0⟩
  match klinesWalkLoop src endDate fuel s0 [] [] with
  | none => none
  | some out =>
      if out.final.buffer.isEmpty then
        some ⟨none,
              out.checkpoints.map
                (fun b => persistBy (fun r => r.open_time) b.flatten),
              out.calls⟩
      else
        some ⟨some (persistBy (fun r => r.open_time) out.final.buffer.flatten),
              out.checkpoints.map
                (fun b => persistBy (fun r => r.open_time) b.flatten)
                ++ [persistBy (fun r => r.open_time) out.final.buffer.flatten],
              out.calls⟩

/-- `fetch_historical_funding_rates` paging loop, written out over
`FundingRecord` with the `fundingTime` primary key (lines 226–257). -/
def fundingWalkLoop (src : Nat → Option (List FundingRecord)) (endDate : Nat) :
    Nat → WalkerState FundingRecord → List (List (List FundingRecord)) →
    List Nat → Option (RunOutcome FundingRecord)
  | 0, s, cps, calls =>
      if s.cursor < endDate then none else some ⟨s, cps, calls⟩
  | fuel + 1, s, cps, calls =>
      if s.cursor < endDate then
        match src s.cursor with
        | none => some ⟨s, cps, calls ++ [s.cursor]⟩
        | some page =>
            if page.isEmpty then some ⟨s, cps, calls ++ [s.cursor]⟩
            else if page.length < 1000 then
              some ⟨stepState (fun r => r.fundingTime) s page,
                    stepCps cps
                      (stepState (fun r => r.fundingTime) s page).buffer,
                    calls ++ [s.cursor]⟩
            else
              fundingWalkLoop src endDate fuel
                (stepState (fun r => r.fundingTime) s page)
                (stepCps cps (stepState (fun r => r.fundingTime) s page).buffer)
                (calls ++ [s.cursor])
      else some ⟨s, cps, calls⟩

/-- `fetch_historical_funding_rates`: resume from the existing CSV (lines
214–221), run the paging loop, final save / no-data return (260–268). -/
def fetch_historical_funding_rates (src : Nat → Option (List FundingRecord))
    (existing : Option (List FundingRecord)) (startDate endDate fuel : Nat) :
    Option (FetchResult FundingRecord) :=
  let s0 : WalkerState FundingRecord :=
    match existing with
    | some ex => ⟨[ex], pageMax (fun r => r.fundingTime) ex + 1, 0⟩
    | none => ⟨[], startDate, 0⟩
  match fundingWalkLoop src endDate fuel s0 [] [] with
  | none => none
  | some out =>
      if out.final.buffer.isEmpty then
        some ⟨none,
              out.checkpoints.map
                (fun b => persistBy (fun r => r.fundingTime) b.flatten),
              out.calls⟩
      else
        some ⟨some (persistBy (fun r => r.fundingTime)
                      out.final.buffer.flatten),
              out.checkpoints.map
                (fun b => persistBy (fun r => r.fundingTime) b.flatten)
                ++ [persistBy (fun r => r.fundingTime)
                      out.final.buffer.flatten],
              out.calls⟩

/-- A page source backed by a static record store `S` with server-side
filtering: a request at cursor `c` returns the records of `S` whose time
lies in `[c, endDate]`, capped at the 1000-row page limit, and the empty
answer `None` when no record qualifies.  This models a provider whose
data does not change between runs. -/
def staticSrc (t : α → Nat) (S : List α) (endDate : Nat) (c : Nat) :
    Option (List α) :=
  let hits := S.filter (fun r => c ≤ t r && t r ≤ endDate)
  if hits.isEmpty then none else some (hits.take 1000)

/-- A bar record with the given open_time and trivial payload, used as a
concrete test input. -/
def sampleBar (ot : Nat) : BarRecord :=
  ⟨ot, 0, 0, 0, 0, 0, ot, 0, 0, 0, 0⟩

/-- A funding record with the given fundingTime, used as a concrete test
input. -/
def sampleFunding (ft : Nat) : FundingRecord := ⟨ft, 0⟩

/-- A deterministic page source used to test checkpoint timing on a
resumed run: full 1000-row pages whose rows all carry the query cursor as
open_time while the cursor is below 9, one final 1-row page at cursor 9,
nothing after. -/
def c4src (c : Nat) : Option (List BarRecord) :=
  if c < 9 then some (List.replicate 1000 (sampleBar c))
  else if c = 9 then some [sampleBar 9] else none

/-- The buffer contents after the c4src run: the seeded existing frame,
eight full pages, and the final short page — ten frames. -/
def c4buf : List (List BarRecord) :=
  [[sampleBar 0], List.replicate 1000 (sampleBar 1),
   List.replicate 1000 (sampleBar 2), List.replicate 1000 (sampleBar 3),
   List.replicate 1000 (sampleBar 4), List.replicate 1000 (sampleBar 5),
   List.replicate 1000 (sampleBar 6), List.replicate 1000 (sampleBar 7),
   List.replicate 1000 (sampleBar 8), [sampleBar 9]]

/-- A fixed deterministic page source whose data at cursor 6 was never
requested by a first run that stopped on a short page at cursor 0. -/
def c7src (c : Nat) : Option (List BarRecord) :=
  if c = 0 then some [sampleBar 5]
  else if c = 6 then some [sampleBar 7] else none

/-- A pathological page source that always answers with a full page of
1000 records whose open_time is 0, i.e. entirely at or before any
positive cursor. -/
def c8src (_c : Nat) : Option (List BarRecord) :=
  some (List.replicate 1000 (sampleBar 0))

/-- A well-behaved page source: one record exactly at the query cursor. -/
def c8goodSrc (c : Nat) : Option (List BarRecord) := some [sampleBar c]

theorem pageMax_cons (t : α → Nat) (a : α) (l : List α) :
    pageMax t (a :: l) = Nat.max (t a) (pageMax t l) := rfl

theorem le_pageMax (t : α → Nat) {r : α} {l : List α} (h : r ∈ l) :
    t r ≤ pageMax t l := by
  induction l with
  | nil => cases h
  | cons a l ih =>
      rw [pageMax_cons]
      rcases List.mem_cons.mp h with rfl | h
      · exact Nat.le_max_left _ _
      · exact le_trans (ih h) (Nat.le_max_right _ _)

theorem pageMax_le {t : α → Nat} {m : Nat} {l : List α}
    (h : ∀ r ∈ l, t r ≤ m) : pageMax t l ≤ m := by
  induction l with
  | nil => exact Nat.zero_le m
  | cons a l ih =>
      rw [pageMax_cons]
      exact Nat.max_le.mpr ⟨h a (List.mem_cons_self a l),
        ih (fun r hr => h r (List.mem_cons_of_mem a hr))⟩

theorem mem_of_mem_dropDup {t : α → Nat} {l : List α} {y : α}
    (h : y ∈ dropDuplicatesBy t l) : y ∈ l := by
  induction l with
  | nil => cases h
  | cons a l ih =>
      rcases List.mem_cons.mp h with rfl | h
      · exact List.mem_cons_self _ _
      · exact List.mem_cons_of_mem a (ih (List.mem_of_mem_filter h))

theorem times_mem_dropDup {t : α → Nat} {l : List α} {x : Nat}
    (h : x ∈ l.map t) : x ∈ (dropDuplicatesBy t l).map t := by
  induction l with
  | nil => cases h
  | cons a l ih =>
      rcases List.mem_map.mp h with ⟨r, hr, hrt⟩
      rcases List.mem_cons.mp hr with rfl | hr
      · exact List.mem_map.mpr ⟨r, List.mem_cons_self _ _, hrt⟩
      · rcases List.mem_map.mp (ih (List.mem_map.mpr ⟨r, hr, hrt⟩)) with
          ⟨y, hy, hyt⟩
        by_cases hxa : x = t a
        · exact List.mem_map.mpr ⟨a, List.mem_cons_self _ _, hxa.symm⟩
        · refine List.mem_map.mpr ⟨y, List.mem_cons_of_mem a ?_, hyt⟩
          refine List.mem_filter.mpr ⟨hy, ?_⟩
          simp only [decide_eq_true_eq]
          intro hcontra
          exact hxa (by rw [← hyt]; exact hcontra)

theorem nodup_times_dropDup (t : α → Nat) (l : List α) :
    ((dropDuplicatesBy t l).map t).Nodup := by
  induction l with
  | nil => exact List.nodup_nil
  | cons a l ih =>
      refine List.nodup_cons.mpr ⟨?_, ?_⟩
      · intro hmem
        rcases List.mem_map.mp hmem with ⟨y, hy, hyt⟩
        have h2 := (List.mem_filter.mp hy).2
        simp only [decide_eq_true_eq] at h2
        exact h2 hyt
      · exact List.Nodup.sublist ((List.filter_sublist _).map t) ih

theorem mem_dropDup_append {t : α → Nat} {ex rest : List α} {e : α}
    (hnd : (ex.map t).Nodup) (he : e ∈ ex) :
    e ∈ dropDuplicatesBy t (ex ++ rest) := by
  induction ex with
  | nil => cases he
  | cons a l ih =>
      rcases List.nodup_cons.mp hnd with ⟨hna, hnl⟩
      rcases List.mem_cons.mp he with rfl | he
      · exact List.mem_cons_self _ _
      · refine List.mem_cons_of_mem a (List.mem_filter.mpr ⟨ih hnl he, ?_⟩)
        have hmem : t e ∈ l.map t := List.mem_map.mpr ⟨e, he, rfl⟩
        simp only [decide_eq_true_eq]
        intro hcontra
        rw [hcontra] at hmem
        exact hna hmem

theorem insertBy_perm (t : α → Nat) (x : α) (l : List α) :
    (insertBy t x l).Perm (x :: l) := by
  induction l with
  | nil => exact List.Perm.refl _
  | cons y ys ih =>
      rw [insertBy]
      split
      · exact List.Perm.refl _
      · exact (ih.cons y).trans (List.Perm.swap x y ys)

theorem sortBy_perm (t : α → Nat) (l : List α) : (sortBy t l).Perm l := by
  induction l with
  | nil => exact List.Perm.refl _
  | cons x xs ih => exact (insertBy_perm t x (sortBy t xs)).trans (ih.cons x)

theorem sorted_insertBy {t : α → Nat} {x : α} {l : List α}
    (h : l.Pairwise (fun a b => t a ≤ t b)) :
    (insertBy t x l).Pairwise (fun a b => t a ≤ t b) := by
  induction l with
  | nil => exact List.pairwise_singleton _ x
  | cons y ys ih =>
      rcases List.pairwise_cons.mp h with ⟨hy, hys⟩
      rw [insertBy]
      split
      · rename_i hxy
        refine List.pairwise_cons.mpr ⟨?_, h⟩
        intro z hz
        rcases List.mem_cons.mp hz with rfl | hz
        · exact hxy
        · exact le_trans hxy (hy z hz)
      · rename_i hxy
        refine List.pairwise_cons.mpr ⟨?_, ih hys⟩
        intro z hz
        rcases List.mem_cons.mp ((insertBy_perm t x ys).mem_iff.mp hz) with
          rfl | hz
        · omega
        · exact hy z hz

theorem sorted_sortBy (t : α → Nat) (l : List α) :
    (sortBy t l).Pairwise (fun a b => t a ≤ t b) := by
  induction l with
  | nil => exact List.Pairwise.nil
  | cons x xs ih => exact sorted_insertBy ih

theorem nodup_times_persistBy (t : α → Nat) (l : List α) :
    ((persistBy t l).map t).Nodup := by
  have hperm := (sortBy_perm t (dropDuplicatesBy t l)).map t
  exact hperm.symm.nodup (nodup_times_dropDup t l)

theorem pairwise_lt_persistBy (t : α → Nat) (l : List α) :
    (persistBy t l).Pairwise (fun a b => t a < t b) := by
  have hle := sorted_sortBy t (dropDuplicatesBy t l)
  have hne : (persistBy t l).Pairwise (fun a b => t a ≠ t b) :=
    List.pairwise_map.mp (nodup_times_persistBy t l)
  exact (hle.and hne).imp (fun h => lt_of_le_of_ne h.1 h.2)

theorem mem_of_mem_persistBy {t : α → Nat} {l : List α} {y : α}
    (h : y ∈ persistBy t l) : y ∈ l :=
  mem_of_mem_dropDup ((sortBy_perm t _).mem_iff.mp h)

theorem mem_persistBy_append {t : α → Nat} {ex rest : List α} {e : α}
    (hnd : (ex.map t).Nodup) (he : e ∈ ex) :
    e ∈ persistBy t (ex ++ rest) :=
  (sortBy_perm t _).mem_iff.mpr (mem_dropDup_append hnd he)

theorem times_mem_persistBy (t : α → Nat) {l : List α} {x : Nat}
    (h : x ∈ l.map t) : x ∈ (persistBy t l).map t :=
  ((sortBy_perm t _).map t).mem_iff.mpr (times_mem_dropDup h)

theorem pageMax_persistBy (t : α → Nat) (l : List α) :
    pageMax t (persistBy t l) = pageMax t l := by
  apply Nat.le_antisymm
  · exact pageMax_le (fun r hr => le_pageMax t (mem_of_mem_persistBy hr))
  · refine pageMax_le (fun r hr => ?_)
    rcases List.mem_map.mp
        (times_mem_persistBy t (List.mem_map.mpr ⟨r, hr, rfl⟩)) with
      ⟨y, hy, hyt⟩
    have hle := le_pageMax t hy
    rwa [hyt] at hle

theorem dropDup_eq_self {t : α → Nat} {l : List α}
    (h : (l.map t).Nodup) : dropDuplicatesBy t l = l := by
  induction l with
  | nil => rfl
  | cons a l ih =>
      rcases List.nodup_cons.mp h with ⟨hna, hnl⟩
      rw [dropDuplicatesBy, ih hnl]
      congr 1
      apply List.filter_eq_self.mpr
      intro y hy
      simp only [decide_eq_true_eq]
      intro hcontra
      exact absurd (List.mem_map.mpr ⟨y, hy, hcontra⟩) hna

theorem sortBy_eq_self {t : α → Nat} {l : List α}
    (h : l.Pairwise (fun a b => t a ≤ t b)) : sortBy t l = l := by
  induction l with
  | nil => rfl
  | cons a l ih =>
      rcases List.pairwise_cons.mp h with ⟨ha, hl⟩
      rw [sortBy, ih hl]
      cases l with
      | nil => rfl
      | cons b bs =>
          rw [insertBy, if_pos (ha b (List.mem_cons_self b bs))]

theorem persistBy_eq_self {t : α → Nat} {l : List α}
    (h : l.Pairwise (fun a b => t a < t b)) : persistBy t l = l := by
  have hnd : (l.map t).Nodup :=
    List.pairwise_map.mpr (h.imp (fun hab => Nat.ne_of_lt hab))
  rw [persistBy, dropDup_eq_self hnd,
    sortBy_eq_self (h.imp (fun hab => Nat.le_of_lt hab))]


theorem pageMax_mem {t : α → Nat} {l : List α} (h : l ≠ []) :
    pageMax t l ∈ l.map t := by
  induction l with
  | nil => exact absurd rfl h
  | cons a l ih =>
      rw [pageMax_cons]
      cases l with
      | nil => simp [pageMax]
      | cons b bs =>
          rcases Nat.le_total (pageMax t (b :: bs)) (t a) with hle | hle
          · have hmax : Nat.max (t a) (pageMax t (b :: bs)) = t a :=
              Nat.max_eq_left hle
            rw [hmax]
            exact List.mem_map.mpr ⟨a, List.mem_cons_self _ _, rfl⟩
          · have hmax : Nat.max (t a) (pageMax t (b :: bs)) =
                pageMax t (b :: bs) := Nat.max_eq_right hle
            rw [hmax]
            exact List.mem_cons_of_mem _ (ih (by simp))

theorem foldr_max_init (L : List Nat) (b : Nat) :
    L.foldr Nat.max b = Nat.max (L.foldr Nat.max 0) b := by
  induction L with
  | nil => exact (Nat.zero_max b).symm
  | cons a L ih =>
      simp only [List.foldr_cons]
      rw [ih]
      exact (Nat.max_assoc _ _ _).symm

theorem pageMax_append (t : α → Nat) (l₁ l₂ : List α) :
    pageMax t (l₁ ++ l₂) = Nat.max (pageMax t l₁) (pageMax t l₂) := by
  simp only [pageMax, List.map_append, List.foldr_append]
  exact foldr_max_init _ _

theorem walkLoop_exit (t : α → Nat) (src : Nat → Option (List α))
    (endDate fuel : Nat) (s : WalkerState α) (cps : List (List (List α)))
    (calls : List Nat) (h : ¬s.cursor < endDate) :
    walkLoop t src endDate fuel s cps calls = some ⟨s, cps, calls⟩ := by
  cases fuel <;> simp [walkLoop, h]

theorem walkLoop_succ_none (t : α → Nat) (src : Nat → Option (List α))
    (endDate fuel : Nat) (s : WalkerState α) (cps : List (List (List α)))
    (calls : List Nat) (hc : s.cursor < endDate)
    (hp : src s.cursor = none) :
    walkLoop t src endDate (fuel + 1) s cps calls =
      some ⟨s, cps, calls ++ [s.cursor]⟩ := by
  rw [walkLoop, if_pos hc, hp]

theorem walkLoop_succ_some (t : α → Nat) (src : Nat → Option (List α))
    (endDate fuel : Nat) (s : WalkerState α) (cps : List (List (List α)))
    (calls : List Nat) (page : List α) (hc : s.cursor < endDate)
    (hp : src s.cursor = some page) :
    walkLoop t src endDate (fuel + 1) s cps calls =
      (if page.isEmpty then some ⟨s, cps, calls ++ [s.cursor]⟩
       else if page.length < 1000 then
         some ⟨stepState t s page, stepCps cps (stepState t s page).buffer,
               calls ++ [s.cursor]⟩
       else
         walkLoop t src endDate fuel (stepState t s page)
           (stepCps cps (stepState t s page).buffer)
           (calls ++ [s.cursor])) := by
  rw [walkLoop, if_pos hc, hp]

theorem walkLoop_cps_mono (t : α → Nat) (src : Nat → Option (List α))
    (endDate : Nat) :
    ∀ fuel (s : WalkerState α) cps calls out,
      walkLoop t src endDate fuel s cps calls = some out →
      ∃ added, out.checkpoints = cps ++ added := by
  intro fuel
  induction fuel with
  | zero =>
      intro s cps calls out h
      rw [walkLoop] at h
      split at h
      · cases h
      · cases h
        exact ⟨[], by simp⟩
  | succ n ih =>
      intro s cps calls out h
      by_cases hc : s.cursor < endDate
      · cases hp : src s.cursor with
        | none =>
            rw [walkLoop_succ_none t src endDate n s cps calls hc hp] at h
            cases h
            exact ⟨[], by simp⟩
        | some page =>
            rw [walkLoop_succ_some t src endDate n s cps calls page hc hp] at h
            by_cases hne : page.isEmpty
            · rw [if_pos hne] at h
              cases h
              exact ⟨[], by simp⟩
            · rw [if_neg hne] at h
              by_cases hshort : page.length < 1000
              · rw [if_pos hshort] at h
                cases h
                by_cases hdiv : (stepState t s page).buffer.length % 10 = 0
                · exact ⟨[(stepState t s page).buffer],
                    by simp [stepCps, hdiv]⟩
                · exact ⟨[], by simp [stepCps, hdiv]⟩
              · rw [if_neg hshort] at h
                rcases ih _ _ _ _ h with ⟨added, hadd⟩
                by_cases hdiv : (stepState t s page).buffer.length % 10 = 0
                · rw [stepCps, if_pos hdiv] at hadd
                  exact ⟨[(stepState t s page).buffer] ++ added,
                    by simp [hadd]⟩
                · rw [stepCps, if_neg hdiv] at hadd
                  exact ⟨added, hadd⟩
      · rw [walkLoop_exit t src endDate (n + 1) s cps calls hc] at h
        cases h
        exact ⟨[], by simp⟩

theorem walkLoop_invariant (t : α → Nat) (src : Nat → Option (List α))
    (endDate : Nat) (P : List (List α) → Prop)
    (hP : ∀ b page, ¬page.isEmpty → P b → P (b ++ [page])) :
    ∀ fuel (s : WalkerState α) cps calls out,
      P s.buffer → (∀ b ∈ cps, P b) →
      walkLoop t src endDate fuel s cps calls = some out →
      P out.final.buffer ∧ ∀ b ∈ out.checkpoints, P b := by
  intro fuel
  induction fuel with
  | zero =>
      intro s cps calls out hs hcps h
      rw [walkLoop] at h
      split at h
      · cases h
      · cases h
        exact ⟨hs, hcps⟩
  | succ n ih =>
      intro s cps calls out hs hcps h
      by_cases hc : s.cursor < endDate
      · cases hp : src s.cursor with
        | none =>
            rw [walkLoop_succ_none t src endDate n s cps calls hc hp] at h
            cases h
            exact ⟨hs, hcps⟩
        | some page =>
            rw [walkLoop_succ_some t src endDate n s cps calls page hc hp] at h
            by_cases hne : page.isEmpty
            · rw [if_pos hne] at h
              cases h
              exact ⟨hs, hcps⟩
            · rw [if_neg hne] at h
              have hs' : P (stepState t s page).buffer := hP _ _ hne hs
              have hcps' : ∀ b ∈ stepCps cps (stepState t s page).buffer,
                  P b := by
                intro b hb
                rw [stepCps] at hb
                split at hb
                · rcases List.mem_append.mp hb with hb | hb
                  · exact hcps b hb
                  · rw [List.mem_singleton.mp hb]
                    exact hs'
                · exact hcps b hb
              by_cases hshort : page.length < 1000
              · rw [if_pos hshort] at h
                cases h
                exact ⟨hs', hcps'⟩
              · rw [if_neg hshort] at h
                exact ih _ _ _ _ hs' hcps' h
      · rw [walkLoop_exit t src endDate (n + 1) s cps calls hc] at h
        cases h
        exact ⟨hs, hcps⟩

theorem walkLoop_checkpoints_div (t : α → Nat) (src : Nat → Option (List α))
    (endDate : Nat) :
    ∀ fuel (s : WalkerState α) cps calls out,
      (∀ b ∈ cps, b.length % 10 = 0) →
      walkLoop t src endDate fuel s cps calls = some out →
      ∀ b ∈ out.checkpoints, b.length % 10 = 0 := by
  intro fuel
  induction fuel with
  | zero =>
      intro s cps calls out hcps h
      rw [walkLoop] at h
      split at h
      · cases h
      · cases h
        exact hcps
  | succ n ih =>
      intro s cps calls out hcps h
      by_cases hc : s.cursor < endDate
      · cases hp : src s.cursor with
        | none =>
            rw [walkLoop_succ_none t src endDate n s cps calls hc hp] at h
            cases h
            exact hcps
        | some page =>
            rw [walkLoop_succ_some t src endDate n s cps calls page hc hp] at h
            have hcps' : ∀ b ∈ stepCps cps (stepState t s page).buffer,
                b.length % 10 = 0 := by
              intro b hb
              rw [stepCps] at hb
              split at hb
              · rename_i hdiv
                rcases List.mem_append.mp hb with hb | hb
                · exact hcps b hb
                · rw [List.mem_singleton.mp hb]
                  exact hdiv
              · exact hcps b hb
            by_cases hne : page.isEmpty
            · rw [if_pos hne] at h
              cases h
              exact hcps
            · rw [if_neg hne] at h
              by_cases hshort : page.length < 1000
              · rw [if_pos hshort] at h
                cases h
                exact hcps'
              · rw [if_neg hshort] at h
                exact ih _ _ _ _ hcps' h
      · rw [walkLoop_exit t src endDate (n + 1) s cps calls hc] at h
        cases h
        exact hcps

theorem walkLoop_nofire_bound (t : α → Nat) (src : Nat → Option (List α))
    (endDate : Nat) :
    ∀ fuel (s : WalkerState α) cps calls out,
      walkLoop t src endDate fuel s cps calls = some out →
      out.checkpoints = cps →
      out.final.buffer.length ≤
        s.buffer.length - s.buffer.length % 10 + 9 := by
  intro fuel
  induction fuel with
  | zero =>
      intro s cps calls out h hsame
      rw [walkLoop] at h
      split at h
      · cases h
      · cases h
        dsimp only
        omega
  | succ n ih =>
      intro s cps calls out h hsame
      by_cases hc : s.cursor < endDate
      · cases hp : src s.cursor with
        | none =>
            rw [walkLoop_succ_none t src endDate n s cps calls hc hp] at h
            cases h
            dsimp only
            omega
        | some page =>
            rw [walkLoop_succ_some t src endDate n s cps calls page hc hp] at h
            have hblen : (stepState t s page).buffer.length =
                s.buffer.length + 1 := by
              simp [stepState]
            by_cases hne : page.isEmpty
            · rw [if_pos hne] at h
              cases h
              dsimp only
              omega
            · rw [if_neg hne] at h
              by_cases hshort : page.length < 1000
              · rw [if_pos hshort] at h
                cases h
                dsimp only at hsame ⊢
                by_cases hdiv : (stepState t s page).buffer.length % 10 = 0
                · rw [stepCps, if_pos hdiv] at hsame
                  exact absurd hsame (by simp)
                · rw [hblen] at hdiv
                  omega
              · rw [if_neg hshort] at h
                by_cases hdiv : (stepState t s page).buffer.length % 10 = 0
                · rcases walkLoop_cps_mono t src endDate n _ _ _ _ h with
                    ⟨added, hadd⟩
                  rw [hsame, stepCps, if_pos hdiv] at hadd
                  exact absurd hadd (by simp)
                · have hsame' : out.checkpoints =
                      stepCps cps (stepState t s page).buffer := by
                    rw [stepCps, if_neg hdiv, hsame]
                  have hb := ih _ _ _ _ h hsame'
                  rw [hblen] at hb
                  rw [hblen] at hdiv
                  omega
      · rw [walkLoop_exit t src endDate (n + 1) s cps calls hc] at h
        cases h
        dsimp only
        omega

theorem walkLoop_terminates (t : α → Nat) (src : Nat → Option (List α))
    (endDate : Nat)
    (hsrc : ∀ c page, src c = some page → ¬page.isEmpty →
      c ≤ pageMax t page) :
    ∀ fuel (s : WalkerState α) cps calls, endDate ≤ s.cursor + fuel →
      walkLoop t src endDate fuel s cps calls ≠ none := by
  intro fuel
  induction fuel with
  | zero =>
      intro s cps calls hfuel
      rw [walkLoop, if_neg (by omega)]
      exact Option.noConfusion
  | succ n ih =>
      intro s cps calls hfuel
      by_cases hc : s.cursor < endDate
      · cases hp : src s.cursor with
        | none =>
            rw [walkLoop_succ_none t src endDate n s cps calls hc hp]
            exact Option.noConfusion
        | some page =>
            rw [walkLoop_succ_some t src endDate n s cps calls page hc hp]
            by_cases hne : page.isEmpty
            · rw [if_pos hne]
              exact Option.noConfusion
            · rw [if_neg hne]
              by_cases hshort : page.length < 1000
              · rw [if_pos hshort]
                exact Option.noConfusion
              · rw [if_neg hshort]
                have hcle := hsrc s.cursor page hp hne
                refine ih _ _ _ ?_
                have hstep : (stepState t s page).cursor =
                    pageMax t page + 1 := rfl
                omega
      · rw [walkLoop_exit t src endDate (n + 1) s cps calls hc]
        exact Option.noConfusion

theorem staticSrc_none_iff (t : α → Nat) (S : List α) (endDate c : Nat) :
    staticSrc t S endDate c = none ↔
      ∀ r ∈ S, ¬(c ≤ t r ∧ t r ≤ endDate) := by
  simp only [staticSrc]
  split
  · rename_i hemp
    refine iff_of_true rfl ?_
    intro r hr hcon
    have hmem : r ∈ S.filter (fun r => c ≤ t r && t r ≤ endDate) :=
      List.mem_filter.mpr ⟨hr, by
        simp [decide_eq_true_eq, hcon.1, hcon.2]⟩
    rw [List.isEmpty_iff.mp hemp] at hmem
    cases hmem
  · rename_i hemp
    refine iff_of_false (by simp) ?_
    have hne : S.filter (fun r => c ≤ t r && t r ≤ endDate) ≠ [] := by
      intro hnil
      exact hemp (by rw [hnil]; rfl)
    rcases List.exists_mem_of_ne_nil _ hne with ⟨r, hr⟩
    rcases List.mem_filter.mp hr with ⟨hrS, hrp⟩
    simp only [Bool.and_eq_true, decide_eq_true_eq] at hrp
    intro hall
    exact hall r hrS ⟨hrp.1, hrp.2⟩

theorem staticSrc_some {t : α → Nat} {S : List α} {endDate c : Nat}
    {page : List α} (h : staticSrc t S endDate c = some page) :
    page = (S.filter (fun r => c ≤ t r && t r ≤ endDate)).take 1000 ∧
      S.filter (fun r => c ≤ t r && t r ≤ endDate) ≠ [] := by
  rw [staticSrc] at h
  split at h
  · cases h
  · rename_i hemp
    cases h
    exact ⟨rfl, fun hnil => hemp (by rw [hnil]; rfl)⟩

theorem staticSrc_page_mem {t : α → Nat} {S : List α} {endDate c : Nat}
    {page : List α} (h : staticSrc t S endDate c = some page)
    {r : α} (hr : r ∈ page) : r ∈ S ∧ c ≤ t r ∧ t r ≤ endDate := by
  rcases staticSrc_some h with ⟨hpage, _⟩
  rw [hpage] at hr
  rcases List.mem_filter.mp (List.take_subset _ _ hr) with ⟨hrS, hrp⟩
  simp only [Bool.and_eq_true, decide_eq_true_eq] at hrp
  exact ⟨hrS, hrp.1, hrp.2⟩

theorem staticSrc_not_empty_page {t : α → Nat} {S : List α}
    {endDate c : Nat} {page : List α}
    (h : staticSrc t S endDate c = some page) : ¬page.isEmpty := by
  rcases staticSrc_some h with ⟨hpage, hne⟩
  intro hemp
  rcases List.take_eq_nil_iff.mp (hpage ▸ List.isEmpty_iff.mp hemp) with
    h1000 | hnil
  · cases h1000
  · exact hne hnil

theorem staticSrc_short_exhausts {t : α → Nat} {S : List α}
    {endDate c : Nat} {page : List α}
    (h : staticSrc t S endDate c = some page)
    (hshort : page.length < 1000) :
    ∀ r ∈ S, (c ≤ t r ∧ t r ≤ endDate) → r ∈ page := by
  rcases staticSrc_some h with ⟨hpage, _⟩
  have hlen : (S.filter (fun r => c ≤ t r && t r ≤ endDate)).length < 1000 := by
    by_contra hge
    rw [hpage, List.length_take] at hshort
    omega
  have hall : page = S.filter (fun r => c ≤ t r && t r ≤ endDate) := by
    rw [hpage, List.take_of_length_le (Nat.le_of_lt hlen)]
  intro r hrS hrp
  rw [hall]
  exact List.mem_filter.mpr ⟨hrS, by simp [hrp.1, hrp.2]⟩

theorem walkLoop_static (t : α → Nat) (S : List α) (endDate : Nat) :
    ∀ fuel (s : WalkerState α) cps calls out,
      (∀ r ∈ s.buffer.flatten, t r < s.cursor) →
      (s.buffer.flatten ≠ [] → s.cursor = pageMax t s.buffer.flatten + 1) →
      walkLoop t (staticSrc t S endDate) endDate fuel s cps calls =
        some out →
      ((∀ r ∈ out.final.buffer.flatten, t r < out.final.cursor) ∧
       (out.final.buffer.flatten ≠ [] →
         out.final.cursor = pageMax t out.final.buffer.flatten + 1) ∧
       (endDate ≤ out.final.cursor ∨
         ∀ r ∈ S, ¬(out.final.cursor ≤ t r ∧ t r ≤ endDate))) := by
  intro fuel
  induction fuel with
  | zero =>
      intro s cps calls out h1 h2 h
      rw [walkLoop] at h
      split at h
      · cases h
      · cases h
        exact ⟨h1, h2, Or.inl (by dsimp only; omega)⟩
  | succ n ih =>
      intro s cps calls out h1 h2 h
      by_cases hc : s.cursor < endDate
      · cases hp : staticSrc t S endDate s.cursor with
        | none =>
            rw [walkLoop_succ_none _ _ endDate n s cps calls hc hp] at h
            cases h
            exact ⟨h1, h2, Or.inr ((staticSrc_none_iff t S endDate _).mp hp)⟩
        | some page =>
            rw [walkLoop_succ_some _ _ endDate n s cps calls page hc hp] at h
            have hne := staticSrc_not_empty_page hp
            rw [if_neg hne] at h
            have hpne : page ≠ [] := fun hnil =>
              hne (by rw [hnil]; rfl)
            have hmem : ∀ r ∈ page, r ∈ S ∧ s.cursor ≤ t r ∧ t r ≤ endDate :=
              fun r hr => staticSrc_page_mem hp hr
            have hcur_le : s.cursor ≤ pageMax t page := by
              rcases List.exists_mem_of_ne_nil _ hpne with ⟨r0, hr0⟩
              exact le_trans (hmem r0 hr0).2.1 (le_pageMax t hr0)
            have hflat : (stepState t s page).buffer.flatten =
                s.buffer.flatten ++ page := by
              simp [stepState, List.flatten_append]
            have h1' : ∀ r ∈ (stepState t s page).buffer.flatten,
                t r < (stepState t s page).cursor := by
              intro r hr
              rw [hflat] at hr
              have hcur : (stepState t s page).cursor =
                  pageMax t page + 1 := rfl
              rw [hcur]
              rcases List.mem_append.mp hr with hr | hr
              · have := h1 r hr
                omega
              · have := le_pageMax t hr
                omega
            have h2' : (stepState t s page).buffer.flatten ≠ [] →
                (stepState t s page).cursor =
                  pageMax t (stepState t s page).buffer.flatten + 1 := by
              intro _
              have hcur : (stepState t s page).cursor =
                  pageMax t page + 1 := rfl
              rw [hcur, hflat, pageMax_append]
              cases hfe : s.buffer.flatten with
              | nil =>
                  have hz : pageMax t ([] : List α) = 0 := rfl
                  have hzm : Nat.max 0 (pageMax t page) = pageMax t page :=
                    Nat.zero_max _
                  rw [hz, hzm]
              | cons x xs =>
                  have hold := h2 (by rw [hfe]; exact List.cons_ne_nil x xs)
                  rw [hfe] at hold
                  have hlt : pageMax t (x :: xs) < pageMax t page := by
                    omega
                  have hmax : Nat.max (pageMax t (x :: xs))
                      (pageMax t page) = pageMax t page :=
                    Nat.max_eq_right (Nat.le_of_lt hlt)
                  rw [hmax]
            by_cases hshort : page.length < 1000
            · rw [if_pos hshort] at h
              cases h
              refine ⟨h1', h2', Or.inr ?_⟩
              intro r hrS hcon
              have hcur : (stepState t s page).cursor =
                  pageMax t page + 1 := rfl
              rw [hcur] at hcon
              have hge : s.cursor ≤ t r := by omega
              have hrp := staticSrc_short_exhausts hp hshort r hrS
                ⟨hge, hcon.2⟩
              have := le_pageMax t hrp
              omega
            · rw [if_neg hshort] at h
              exact ih _ _ _ _ h1' h2' h
      · rw [walkLoop_exit _ _ endDate (n + 1) s cps calls hc] at h
        cases h
        exact ⟨h1, h2, Or.inl (by dsimp only; omega)⟩

theorem klinesWalkLoop_eq (src : Nat → Option (List BarRecord))
    (endDate : Nat) :
    ∀ fuel (s : WalkerState BarRecord) cps calls,
      klinesWalkLoop src endDate fuel s cps calls =
        walkLoop (fun r => r.open_time) src endDate fuel s cps calls := by
  intro fuel
  induction fuel with
  | zero =>
      intro s cps calls
      rfl
  | succ n ih =>
      intro s cps calls
      rw [klinesWalkLoop, walkLoop]
      by_cases hc : s.cursor < endDate
      · rw [if_pos hc, if_pos hc]
        cases hp : src s.cursor with
        | none => rfl
        | some page =>
            by_cases hne : page.isEmpty
            · simp only [hne, if_true]
            · by_cases hshort : page.length < 1000
              · simp only [hne, hshort, if_false, if_true]
              · simp only [hne, hshort, if_false, ih]
      · rw [if_neg hc, if_neg hc]

theorem fundingWalkLoop_eq (src : Nat → Option (List FundingRecord))
    (endDate : Nat) :
    ∀ fuel (s : WalkerState FundingRecord) cps calls,
      fundingWalkLoop src endDate fuel s cps calls =
        walkLoop (fun r => r.fundingTime) src endDate fuel s cps calls := by
  intro fuel
  induction fuel with
  | zero =>
      intro s cps calls
      rfl
  | succ n ih =>
      intro s cps calls
      rw [fundingWalkLoop, walkLoop]
      by_cases hc : s.cursor < endDate
      · rw [if_pos hc, if_pos hc]
        cases hp : src s.cursor with
        | none => rfl
        | some page =>
            by_cases hne : page.isEmpty
            · simp only [hne, if_true]
            · by_cases hshort : page.length < 1000
              · simp only [hne, hshort, if_false, if_true]
              · simp only [hne, hshort, if_false, ih]
      · rw [if_neg hc, if_neg hc]

theorem fetch_historical_klines_eq (src : Nat → Option (List BarRecord))
    (existing : Option (List BarRecord)) (startDate endDate fuel : Nat) :
    fetch_historical_klines src existing startDate endDate fuel =
      fetchHistorical (fun r => r.open_time) src existing startDate endDate
        fuel := by
  cases existing with
  | none =>
      simp only [fetch_historical_klines, fetchHistorical, initState,
        klinesWalkLoop_eq]
      cases hw : walkLoop (fun r : BarRecord => r.open_time) src endDate fuel
          ⟨[], startDate, 0⟩ [] [] with
      | none => rfl
      | some out => rfl
  | some ex =>
      simp only [fetch_historical_klines, fetchHistorical, initState,
        klinesWalkLoop_eq]
      cases hw : walkLoop (fun r : BarRecord => r.open_time) src endDate fuel
          ⟨[ex], pageMax (fun r : BarRecord => r.open_time) ex + 1, 0⟩ [] []
          with
      | none => rfl
      | some out => rfl

theorem fetch_historical_funding_rates_eq
    (src : Nat → Option (List FundingRecord))
    (existing : Option (List FundingRecord)) (startDate endDate fuel : Nat) :
    fetch_historical_funding_rates src existing startDate endDate fuel =
      fetchHistorical (fun r => r.fundingTime) src existing startDate endDate
        fuel := by
  cases existing with
  | none =>
      simp only [fetch_historical_funding_rates, fetchHistorical, initState,
        fundingWalkLoop_eq]
      cases hw : walkLoop (fun r : FundingRecord => r.fundingTime) src endDate
          fuel ⟨[], startDate, 0⟩ [] [] with
      | none => rfl
      | some out => rfl
  | some ex =>
      simp only [fetch_historical_funding_rates, fetchHistorical, initState,
        fundingWalkLoop_eq]
      cases hw : walkLoop (fun r : FundingRecord => r.fundingTime) src endDate
          fuel ⟨[ex], pageMax (fun r : FundingRecord => r.fundingTime) ex + 1,
            0⟩ [] [] with
      | none => rfl
      | some out => rfl

theorem fetchHistorical_none (t : α → Nat) (src : Nat → Option (List α))
    (existing : Option (List α)) (startDate endDate fuel : Nat)
    (hw : walkLoop t src endDate fuel (initState t existing startDate) [] []
      = none) :
    fetchHistorical t src existing startDate endDate fuel = none := by
  rw [fetchHistorical, hw]

theorem fetchHistorical_some (t : α → Nat) (src : Nat → Option (List α))
    (existing : Option (List α)) (startDate endDate fuel : Nat)
    (out : RunOutcome α)
    (hw : walkLoop t src endDate fuel (initState t existing startDate) [] []
      = some out) :
    fetchHistorical t src existing startDate endDate fuel =
      (if out.final.buffer.isEmpty then
        some ⟨none, out.checkpoints.map (fun b => persistBy t b.flatten),
              out.calls⟩
      else
        some ⟨some (persistBy t out.final.buffer.flatten),
              out.checkpoints.map (fun b => persistBy t b.flatten)
                ++ [persistBy t out.final.buffer.flatten],
              out.calls⟩) := by
  rw [fetchHistorical, hw]

/-- C1: every persisted snapshot of a dataset — each of the every-10-pages
checkpoint persists and the final persist — is deduplicated by the primary
time field and sorted ascending: the written record sequence has strictly
increasing primary time fields, so no two records share a primary time. -/
theorem c1_every_persist_strictly_sorted (t : α → Nat)
    (src : Nat → Option (List α)) (existing : Option (List α))
    (startDate endDate fuel : Nat) (r : FetchResult α)
    (h : fetchHistorical t src existing startDate endDate fuel = some r) :
    ∀ d ∈ r.persists, d.Pairwise (fun a b => t a < t b) := by
  cases hw : walkLoop t src endDate fuel (initState t existing startDate)
      [] [] with
  | none =>
      rw [fetchHistorical_none t src existing startDate endDate fuel hw] at h
      cases h
  | some out =>
      rw [fetchHistorical_some t src existing startDate endDate fuel out hw]
        at h
      by_cases hemp : out.final.buffer.isEmpty
      · rw [if_pos hemp] at h
        cases h
        intro d hd
        dsimp only at hd
        rcases List.mem_map.mp hd with ⟨b, _, hb⟩
        rw [← hb]
        exact pairwise_lt_persistBy t _
      · rw [if_neg hemp] at h
        cases h
        intro d hd
        dsimp only at hd
        rcases List.mem_append.mp hd with hd | hd
        · rcases List.mem_map.mp hd with ⟨b, _, hb⟩
          rw [← hb]
          exact pairwise_lt_persistBy t _
        · rw [List.mem_singleton.mp hd]
          exact pairwise_lt_persistBy t _

/-- Witness for C1 at a concrete run: the single persisted snapshot of a
one-page fetch is strictly sorted by open_time. -/
theorem c1_witness :
    List.Pairwise (fun a b : BarRecord => a.open_time < b.open_time)
      [sampleBar 5] :=
  c1_every_persist_strictly_sorted (fun r => r.open_time) c7src none 0 100 10
    ⟨some [sampleBar 5], [[sampleBar 5]], [0]⟩ (by decide) [sampleBar 5]
    (by decide)

/-- C2: the cursor is always derived as maximum seen primary time plus
1 ms: resuming with an existing dataset seeds the buffer with it and sets
the cursor to its time maximum plus one; with no dataset the cursor is the
caller's start instant with an empty buffer; and every processed non-empty
page sets the cursor to that page's time maximum plus one. -/
theorem c2_cursor_is_max_plus_one (t : α → Nat) (startDate : Nat) :
    (∀ ex : List α, ex ≠ [] →
       (initState t (some ex) startDate).cursor = pageMax t ex + 1 ∧
       (initState t (some ex) startDate).buffer = [ex] ∧
       pageMax t ex ∈ ex.map t ∧ (∀ x ∈ ex.map t, x ≤ pageMax t ex)) ∧
    ((initState t none startDate).cursor = startDate ∧
     (initState t none startDate).buffer = []) ∧
    (∀ (s : WalkerState α) (page : List α),
       (stepState t s page).cursor = pageMax t page + 1) := by
  refine ⟨?_, ⟨rfl, rfl⟩, fun s page => rfl⟩
  intro ex hex
  refine ⟨rfl, rfl, pageMax_mem hex, ?_⟩
  intro x hx
  rcases List.mem_map.mp hx with ⟨r, hr, hrt⟩
  rw [← hrt]
  exact le_pageMax t hr

/-- Witness for C2 at a concrete input: resuming from a one-record file
with time 5 starts the cursor at 6; a fresh start keeps the caller's
start instant. -/
theorem c2_witness :
    (initState (fun r : BarRecord => r.open_time) (some [sampleBar 5])
      0).cursor = 6 ∧
    (initState (fun r : BarRecord => r.open_time) none 42).cursor = 42 :=
  ⟨((c2_cursor_is_max_plus_one (fun r => r.open_time) 0).1 [sampleBar 5]
      (by decide)).1,
   ((c2_cursor_is_max_plus_one (fun r => r.open_time) 42).2.1).1⟩

/-- Counterexample to C3: the batch calls do NOT return three mutually
distinguishable outcomes — the transport-failure outcome and the
zero-items outcome are the same value None, for both endpoints. -/
theorem c3_counterexample :
    fetch_klines_batch HttpOutcome.failure =
        fetch_klines_batch (HttpOutcome.ok []) ∧
    fetch_funding_rates_batch HttpOutcome.failure =
        fetch_funding_rates_batch (HttpOutcome.ok []) ∧
    fetch_klines_batch HttpOutcome.failure = none ∧
    fetch_funding_rates_batch HttpOutcome.failure = none :=
  ⟨rfl, rfl, rfl, rfl⟩

/-- C3 amended: each batch call has exactly two distinguishable outcomes:
None — returned both on transport/protocol failure and on a zero-item
success, which are therefore indistinguishable to the caller — and the
parsed records on a non-empty success. -/
theorem c3_amended_two_outcomes (respK : HttpOutcome (List RawKline))
    (respF : HttpOutcome (List RawFunding)) :
    (fetch_klines_batch respK = none ↔
      respK = HttpOutcome.failure ∨ respK = HttpOutcome.ok []) ∧
    (∀ raw : List RawKline, raw ≠ [] →
      fetch_klines_batch (HttpOutcome.ok raw) = some (raw.map rawToBar)) ∧
    (fetch_funding_rates_batch respF = none ↔
      respF = HttpOutcome.failure ∨ respF = HttpOutcome.ok []) ∧
    (∀ raw : List RawFunding, raw ≠ [] →
      fetch_funding_rates_batch (HttpOutcome.ok raw) =
        some (raw.map rawToFunding)) := by
  refine ⟨?_, ?_, ?_, ?_⟩
  · cases respK with
    | failure => simp [fetch_klines_batch]
    | ok raw =>
        by_cases hemp : raw.isEmpty
        · simp [fetch_klines_batch, hemp, List.isEmpty_iff.mp hemp]
        · have hraw : raw ≠ [] := fun hn => by
            rw [hn] at hemp
            exact hemp rfl
          simp [fetch_klines_batch, hemp, hraw]
  · intro raw hraw
    have hemp : ¬raw.isEmpty := fun hx => hraw (List.isEmpty_iff.mp hx)
    simp [fetch_klines_batch, hemp]
  · cases respF with
    | failure => simp [fetch_funding_rates_batch]
    | ok raw =>
        by_cases hemp : raw.isEmpty
        · simp [fetch_funding_rates_batch, hemp, List.isEmpty_iff.mp hemp]
        · have hraw : raw ≠ [] := fun hn => by
            rw [hn] at hemp
            exact hemp rfl
          simp [fetch_funding_rates_batch, hemp, hraw]
  · intro raw hraw
    have hemp : ¬raw.isEmpty := fun hx => hraw (List.isEmpty_iff.mp hx)
    simp [fetch_funding_rates_batch, hemp]

/-- Witness for C3 amended: one-row success bodies come back as parsed
records for both endpoints. -/
theorem c3_witness :
    fetch_klines_batch
        (HttpOutcome.ok [(⟨7, 1, 2, 3, 4, 5, 8, 6, 9, 10, 11, 0⟩ :
          RawKline)]) =
      some [rawToBar ⟨7, 1, 2, 3, 4, 5, 8, 6, 9, 10, 11, 0⟩] ∧
    fetch_funding_rates_batch
        (HttpOutcome.ok [(⟨1, 7, 3, 4⟩ : RawFunding)]) =
      some [rawToFunding ⟨1, 7, 3, 4⟩] :=
  ⟨(c3_amended_two_outcomes (HttpOutcome.ok []) (HttpOutcome.ok [])).2.1
      [⟨7, 1, 2, 3, 4, 5, 8, 6, 9, 10, 11, 0⟩] (by decide),
   (c3_amended_two_outcomes (HttpOutcome.ok []) (HttpOutcome.ok [])).2.2.2
      [⟨1, 7, 3, 4⟩] (by decide)⟩

/-- C5: when a fetched page holds fewer than 1000 records, the walker
transitions to DONE right after processing that page (append, cursor
advance, possible checkpoint): the loop result is returned immediately,
exactly one more page-source call is recorded, and this holds regardless
of whether the advanced cursor is still below range_end. -/
theorem c5_short_page_early_done (t : α → Nat) (src : Nat → Option (List α))
    (endDate fuel : Nat) (s : WalkerState α) (cps : List (List (List α)))
    (calls : List Nat) (page : List α)
    (hc : s.cursor < endDate) (hp : src s.cursor = some page)
    (hne : ¬page.isEmpty) (hshort : page.length < 1000) :
    walkLoop t src endDate (fuel + 1) s cps calls =
      some ⟨stepState t s page, stepCps cps (stepState t s page).buffer,
            calls ++ [s.cursor]⟩ := by
  rw [walkLoop_succ_some t src endDate fuel s cps calls page hc hp,
    if_neg hne, if_pos hshort]

/-- Witness for C5 at a concrete input: a 1-record page at cursor 0 ends
the loop at once with exactly one recorded call, although the new cursor 6
is far below range_end 100. -/
theorem c5_witness :
    walkLoop (fun r : BarRecord => r.open_time) c7src 100 10
        ⟨[], 0, 0⟩ [] [] =
      some ⟨stepState (fun r : BarRecord => r.open_time) ⟨[], 0, 0⟩
              [sampleBar 5],
            stepCps []
              (stepState (fun r : BarRecord => r.open_time) ⟨[], 0, 0⟩
                [sampleBar 5]).buffer,
            [] ++ [0]⟩ :=
  c5_short_page_early_done (fun r => r.open_time) c7src 100 9 ⟨[], 0, 0⟩
    [] [] [sampleBar 5] (by decide) (by decide) (by decide) (by decide)

/-- C6: with no existing dataset and range_end at or below the start
instant the walker makes zero page-source calls, writes nothing, and
returns the no-data signal; with an existing dataset and range_end at or
below the resumed cursor the loop body never runs and the walker goes
straight to DONE, returning the previously loaded data (deduplicated and
sorted by the final save). -/
theorem c6_empty_range_noop (t : α → Nat) (src : Nat → Option (List α))
    (startDate endDate fuel : Nat) :
    (endDate ≤ startDate →
       fetchHistorical t src none startDate endDate fuel =
         some ⟨none, [], []⟩) ∧
    (∀ ex : List α, endDate ≤ pageMax t ex + 1 →
       fetchHistorical t src (some ex) startDate endDate fuel =
         some ⟨some (persistBy t ex), [persistBy t ex], []⟩) := by
  constructor
  · intro hle
    have hnc : ¬(initState t none startDate).cursor < endDate := by
      simp only [initState]
      omega
    rw [fetchHistorical_some t src none startDate endDate fuel _
      (walkLoop_exit t src endDate fuel (initState t none startDate) [] []
        hnc)]
    rfl
  · intro ex hle
    have hnc : ¬(initState t (some ex) startDate).cursor < endDate := by
      simp only [initState]
      omega
    rw [fetchHistorical_some t src (some ex) startDate endDate fuel _
      (walkLoop_exit t src endDate fuel (initState t (some ex) startDate)
        [] [] hnc)]
    simp [initState, List.flatten_cons]

/-- Witness for C6 at concrete inputs: empty range with no file gives the
no-data result with zero calls; resume with range_end equal to the
resumed cursor returns the loaded record untouched. -/
theorem c6_witness :
    fetchHistorical (fun r : BarRecord => r.open_time) c7src none 50 50 10 =
      some ⟨none, [], []⟩ ∧
    fetchHistorical (fun r : BarRecord => r.open_time) c7src
        (some [sampleBar 5]) 0 6 10 =
      some ⟨some (persistBy (fun r : BarRecord => r.open_time) [sampleBar 5]),
            [persistBy (fun r : BarRecord => r.open_time) [sampleBar 5]],
            []⟩ :=
  ⟨(c6_empty_range_noop (fun r => r.open_time) c7src 50 50 10).1 (by decide),
   (c6_empty_range_noop (fun r => r.open_time) c7src 0 6 10).2 [sampleBar 5]
     (by decide)⟩

/-- C9: fetch_historical_klines and fetch_historical_funding_rates are the
same incremental-walker algorithm instantiated at two record kinds: for
every page source, existing-file state, range and fuel, each equals the
shared generic walker applied to its primary time field (open_time
respectively fundingTime), so the two perform identical walker steps and
differ only in record schema and time field. -/
theorem c9_same_walker_algorithm :
    (∀ (src : Nat → Option (List BarRecord))
       (existing : Option (List BarRecord)) (startDate endDate fuel : Nat),
       fetch_historical_klines src existing startDate endDate fuel =
         fetchHistorical (fun r => r.open_time) src existing startDate
           endDate fuel) ∧
    (∀ (src : Nat → Option (List FundingRecord))
       (existing : Option (List FundingRecord)) (startDate endDate fuel : Nat),
       fetch_historical_funding_rates src existing startDate endDate fuel =
         fetchHistorical (fun r => r.fundingTime) src existing startDate
           endDate fuel) :=
  ⟨fetch_historical_klines_eq, fetch_historical_funding_rates_eq⟩

/-- Counterexample to C4: checkpoint persists are keyed to the buffer
frame count, which on a resumed run includes the seeded existing-data
frame, not to a pages-since-last-checkpoint counter.  In this resumed run
the (single) checkpoint fires when only 9 pages have been fetched since
the run started — the trace shows one checkpoint whose buffer holds 10
frames (1 seed + 9 pages) after exactly 9 page-source calls, refuting
the claim that a persist happens exactly when the count of pages fetched
since the last checkpoint reaches 10. -/
theorem pageMax_replicate (t : α → Nat) (x : α) (n : Nat) (hn : 0 < n) :
    pageMax t (List.replicate n x) = t x := by
  rcases n with _ | m
  · cases hn
  · clear hn
    induction m with
    | zero => simp [pageMax, List.replicate]
    | succ k ih =>
        rw [List.replicate_succ, pageMax_cons, ih]
        exact Nat.max_self (t x)

theorem c4step (fuel c : Nat) (hc2 : c < 9) (buf : List (List BarRecord))
    (cps : List (List (List BarRecord))) (calls : List Nat) (tot : Nat) :
    walkLoop (fun r : BarRecord => r.open_time) c4src 100000 (fuel + 1)
        ⟨buf, c, tot⟩ cps calls =
      walkLoop (fun r : BarRecord => r.open_time) c4src 100000 fuel
        ⟨buf ++ [List.replicate 1000 (sampleBar c)], c + 1, tot + 1000⟩
        (stepCps cps (buf ++ [List.replicate 1000 (sampleBar c)]))
        (calls ++ [c]) := by
  have hp : c4src c = some (List.replicate 1000 (sampleBar c)) := by
    rw [c4src, if_pos hc2]
  have hlen : (List.replicate 1000 (sampleBar c)).length = 1000 :=
    List.length_replicate 1000 (sampleBar c)
  have hstep : stepState (fun r : BarRecord => r.open_time) ⟨buf, c, tot⟩
      (List.replicate 1000 (sampleBar c)) =
      ⟨buf ++ [List.replicate 1000 (sampleBar c)], c + 1, tot + 1000⟩ := by
    simp only [stepState]
    rw [pageMax_replicate (fun r : BarRecord => r.open_time) (sampleBar c)
      1000 (by omega), hlen]
    rfl
  have hemp : (List.replicate 1000 (sampleBar c)).isEmpty = false := rfl
  rw [walkLoop_succ_some (fun r : BarRecord => r.open_time) c4src 100000
    fuel ⟨buf, c, tot⟩ cps calls (List.replicate 1000 (sampleBar c))
    (by dsimp only; omega) hp]
  rw [if_neg (by rw [hemp]; exact Bool.false_ne_true),
    if_neg (by rw [hlen]; omega), hstep]

/-- Counterexample to C4: checkpoint persists are keyed to the buffer
frame count, which on a resumed run includes the seeded existing-data
frame, not to a pages-since-last-checkpoint counter.  In this resumed run
the (single) checkpoint fires when only 9 pages have been fetched since
the run started — the run performs 9 page-source calls (at cursors 1..9)
and records exactly one checkpoint, whose buffer holds 10 frames (1 seed
frame plus 9 pages), refuting the claim that a persist happens exactly
when the count of pages fetched since the last checkpoint reaches 10. -/
theorem c4_counterexample :
    walkLoop (fun r : BarRecord => r.open_time) c4src 100000 20
        (initState (fun r : BarRecord => r.open_time) (some [sampleBar 0]) 0)
        [] [] =
      some ⟨⟨c4buf, 10, 8001⟩, [c4buf], [1, 2, 3, 4, 5, 6, 7, 8, 9]⟩ ∧
    c4buf.length = 10 ∧
    ([1, 2, 3, 4, 5, 6, 7, 8, 9] : List Nat).length = 9 := by
  refine ⟨?_, by rfl, by rfl⟩
  refine Eq.trans (c4step 19 1 (by omega) _ _ _ _) ?_
  refine Eq.trans (c4step 18 2 (by omega) _ _ _ _) ?_
  refine Eq.trans (c4step 17 3 (by omega) _ _ _ _) ?_
  refine Eq.trans (c4step 16 4 (by omega) _ _ _ _) ?_
  refine Eq.trans (c4step 15 5 (by omega) _ _ _ _) ?_
  refine Eq.trans (c4step 14 6 (by omega) _ _ _ _) ?_
  refine Eq.trans (c4step 13 7 (by omega) _ _ _ _) ?_
  refine Eq.trans (c4step 12 8 (by omega) _ _ _ _) ?_
  refine Eq.trans (walkLoop_succ_some (fun r : BarRecord => r.open_time)
    c4src 100000 11 _ _ _ [sampleBar 9] (by dsimp only; omega) (by rfl)) ?_
  rw [if_neg (by decide), if_pos (by decide)]
  simp only [stepState, stepCps, c4buf, List.cons_append, List.nil_append,
    List.length_append, List.length_cons, List.length_nil]
  norm_num
  decide

/-- C4 amended: a checkpoint persist is invoked exactly when the buffer's
frame count (which on resume includes the seeded existing frame) reaches
a multiple of 10; consequently every checkpoint buffer has a frame count
divisible by 10 — on a fresh start this is exactly every 10th fetched
page, on a resume the first checkpoint comes after the 9th fetched page —
and any run segment that performs no checkpoint grows the buffer to at
most the next multiple of 10 minus one, so a crash loses at most 9
fetched-but-unflushed pages. -/
theorem c4_amended_checkpoint_cadence (t : α → Nat) :
    (∀ (cps : List (List (List α))) (buf : List (List α)),
       (stepCps cps buf = cps ++ [buf] ↔ buf.length % 10 = 0) ∧
       (stepCps cps buf = cps ↔ ¬buf.length % 10 = 0)) ∧
    (∀ (src : Nat → Option (List α)) (endDate fuel : Nat)
       (s : WalkerState α) (out : RunOutcome α),
       walkLoop t src endDate fuel s [] [] = some out →
       ∀ b ∈ out.checkpoints, 10 ∣ b.length) ∧
    (∀ (src : Nat → Option (List α)) (endDate fuel : Nat)
       (s : WalkerState α) (calls : List Nat) (out : RunOutcome α),
       walkLoop t src endDate fuel s [] calls = some out →
       out.checkpoints = [] →
       out.final.buffer.length ≤
         s.buffer.length - s.buffer.length % 10 + 9) := by
  refine ⟨?_, ?_, ?_⟩
  · intro cps buf
    constructor
    · constructor
      · intro h
        by_contra hno
        rw [stepCps, if_neg hno] at h
        have hlen := congrArg List.length h
        simp at hlen
      · intro h
        rw [stepCps, if_pos h]
    · constructor
      · intro h hdiv
        rw [stepCps, if_pos hdiv] at h
        have hlen := congrArg List.length h
        simp at hlen
      · intro h
        rw [stepCps, if_neg h]
  · intro src endDate fuel s out hw b hb
    exact Nat.dvd_of_mod_eq_zero
      (walkLoop_checkpoints_div t src endDate fuel s [] [] out
        (by intro b' hb'; cases hb') hw b hb)
  · intro src endDate fuel s calls out hw hnone
    exact walkLoop_nofire_bound t src endDate fuel s [] calls out hw hnone

/-- Witness for C4 amended at a concrete run: a one-page fresh run fires
no checkpoint and its buffer stays within 9 frames of the last persisted
point. -/
theorem c4_witness :
    ([[sampleBar 5]] : List (List BarRecord)).length ≤
      ([] : List (List BarRecord)).length -
        ([] : List (List BarRecord)).length % 10 + 9 :=
  (c4_amended_checkpoint_cadence (fun r : BarRecord => r.open_time)).2.2
    c7src 100 10 ⟨[], 0, 0⟩ [] ⟨⟨[[sampleBar 5]], 6, 1⟩, [], [0]⟩
    (by decide) rfl

/-- Counterexample to C8: a PAGING iteration does not strictly advance
the cursor, and the loop need not terminate.  With a source that always
answers a full 1000-row page entirely at time 0, one iteration from
cursor 5 moves the cursor down to 1, and the loop is still unfinished
after 50 iterations although range_end is only 20. -/
theorem c8step (fuel : Nat) (s : WalkerState BarRecord)
    (cps : List (List (List BarRecord))) (calls : List Nat)
    (hc : s.cursor < 20) :
    walkLoop (fun r : BarRecord => r.open_time) c8src 20 (fuel + 1) s cps
        calls =
      walkLoop (fun r : BarRecord => r.open_time) c8src 20 fuel
        ⟨s.buffer ++ [List.replicate 1000 (sampleBar 0)], 1,
          s.totalFetched + 1000⟩
        (stepCps cps (s.buffer ++ [List.replicate 1000 (sampleBar 0)]))
        (calls ++ [s.cursor]) := by
  have hlen : (List.replicate 1000 (sampleBar 0)).length = 1000 :=
    List.length_replicate 1000 (sampleBar 0)
  have hemp : (List.replicate 1000 (sampleBar 0)).isEmpty = false := rfl
  have hstep : stepState (fun r : BarRecord => r.open_time) s
      (List.replicate 1000 (sampleBar 0)) =
      ⟨s.buffer ++ [List.replicate 1000 (sampleBar 0)], 1,
        s.totalFetched + 1000⟩ := by
    simp only [stepState]
    rw [pageMax_replicate (fun r : BarRecord => r.open_time) (sampleBar 0)
      1000 (by omega), hlen]
    rfl
  rw [walkLoop_succ_some (fun r : BarRecord => r.open_time) c8src 20 fuel
    s cps calls (List.replicate 1000 (sampleBar 0)) hc rfl]
  rw [if_neg (by rw [hemp]; exact Bool.false_ne_true),
    if_neg (by rw [hlen]; omega), hstep]

theorem c8loops :
    ∀ fuel (buf : List (List BarRecord)) (tot : Nat)
      (cps : List (List (List BarRecord))) (calls : List Nat),
      walkLoop (fun r : BarRecord => r.open_time) c8src 20 fuel
        ⟨buf, 1, tot⟩ cps calls = none := by
  intro fuel
  induction fuel with
  | zero =>
      intro buf tot cps calls
      rw [walkLoop, if_pos (by dsimp only; omega)]
  | succ n ih =>
      intro buf tot cps calls
      rw [c8step n ⟨buf, 1, tot⟩ cps calls (by dsimp only; omega)]
      exact ih _ _ _ _

/-- Counterexample to C8: a PAGING iteration does not strictly advance
the cursor, and the loop need not terminate.  With a source that always
answers a full 1000-row page entirely at time 0, one iteration from
cursor 5 moves the cursor DOWN to 1 (= page max + 1 ≤ previous cursor),
and the loop runs out of any amount of fuel — here 50 — although
range_end is only 20. -/
theorem c8_counterexample :
    walkLoop (fun r : BarRecord => r.open_time) c8src 20 50 ⟨[], 5, 0⟩ [] []
        = none ∧
    (stepState (fun r : BarRecord => r.open_time) ⟨[], 5, 0⟩
        (List.replicate 1000 (sampleBar 0))).cursor < 5 := by
  constructor
  · exact Eq.trans (c8step 49 ⟨[], 5, 0⟩ [] [] (by dsimp only; omega))
      (c8loops 49 _ _ _ _)
  · show pageMax (fun r : BarRecord => r.open_time)
        (List.replicate 1000 (sampleBar 0)) + 1 < 5
    rw [pageMax_replicate (fun r : BarRecord => r.open_time) (sampleBar 0)
      1000 (by omega)]
    decide

/-- C8 amended: the cursor is advanced strictly past the maximum of the
returned page (to page max + 1), not necessarily past the previous
cursor; under a correct page source — every non-empty page contains a
record at or after the query cursor — each iteration strictly increases
the cursor and the loop terminates whenever the fuel covers
range_end - cursor. -/
theorem c8_amended_progress (t : α → Nat) (src : Nat → Option (List α))
    (endDate : Nat)
    (hsrc : ∀ c page, src c = some page → ¬page.isEmpty →
      c ≤ pageMax t page) :
    (∀ (s : WalkerState α) (page : List α), src s.cursor = some page →
       ¬page.isEmpty → s.cursor < (stepState t s page).cursor) ∧
    (∀ fuel (s : WalkerState α) cps calls, endDate ≤ s.cursor + fuel →
       walkLoop t src endDate fuel s cps calls ≠ none) := by
  constructor
  · intro s page hp hne
    have hle := hsrc s.cursor page hp hne
    have hcur : (stepState t s page).cursor = pageMax t page + 1 := rfl
    omega
  · exact walkLoop_terminates t src endDate hsrc

/-- Witness for C8 amended: with the well-behaved one-record-at-cursor
source, fuel 20 suffices for range_end 10 and the loop finishes. -/
theorem c8_witness :
    walkLoop (fun r : BarRecord => r.open_time) c8goodSrc 10 20 ⟨[], 0, 0⟩
      [] [] ≠ none :=
  (c8_amended_progress (fun r : BarRecord => r.open_time) c8goodSrc 10
    (by
      intro c page hp hne
      injection hp with h
      subst h
      exact le_pageMax (fun r : BarRecord => r.open_time)
        (List.mem_singleton_self (sampleBar c)))).2
    20 ⟨[], 0, 0⟩ [] [] (by decide)

/-- C10: records loaded from an existing dataset file are never lost or
replaced: provided the file's primary times are unique (the invariant
every previous persist guarantees), every loaded record appears in every
persisted snapshot of the run and in the final returned dataset, and on a
primary-time collision the persisted record at that time IS the loaded
(first-seen) record, not the freshly fetched one. -/
theorem c10_existing_records_preserved (t : α → Nat)
    (src : Nat → Option (List α)) (ex : List α)
    (startDate endDate fuel : Nat) (r : FetchResult α)
    (hnd : (ex.map t).Nodup)
    (h : fetchHistorical t src (some ex) startDate endDate fuel = some r) :
    (∀ d ∈ r.persists,
       (∀ e ∈ ex, e ∈ d) ∧ (∀ u ∈ d, ∀ e ∈ ex, t u = t e → u = e)) ∧
    (∀ D, r.dataset = some D → ∀ e ∈ ex, e ∈ D) := by
  have hpers : ∀ rest : List α,
      (∀ e ∈ ex, e ∈ persistBy t (ex ++ rest)) ∧
      (∀ u ∈ persistBy t (ex ++ rest), ∀ e ∈ ex, t u = t e → u = e) := by
    intro rest
    constructor
    · intro e he
      exact mem_persistBy_append hnd he
    · intro u hu e he htue
      exact List.inj_on_of_nodup_map (nodup_times_persistBy t _) hu
        (mem_persistBy_append hnd he) htue
  cases hw : walkLoop t src endDate fuel (initState t (some ex) startDate)
      [] [] with
  | none =>
      rw [fetchHistorical_none t src (some ex) startDate endDate fuel hw]
        at h
      cases h
  | some out =>
      have hinv := walkLoop_invariant t src endDate
        (fun b => ∃ rest, b.flatten = ex ++ rest)
        (by
          intro b page hne hb
          rcases hb with ⟨rest, hrest⟩
          exact ⟨rest ++ page, by simp [List.flatten_append, hrest]⟩)
        fuel _ [] [] out
        ⟨[], by simp [initState]⟩
        (by intro b hb; cases hb) hw
      rw [fetchHistorical_some t src (some ex) startDate endDate fuel out hw]
        at h
      by_cases hemp : out.final.buffer.isEmpty
      · rw [if_pos hemp] at h
        cases h
        constructor
        · intro d hd
          dsimp only at hd
          rcases List.mem_map.mp hd with ⟨b, hbmem, hb⟩
          rcases hinv.2 b hbmem with ⟨rest, hrest⟩
          rw [← hb, hrest]
          exact hpers rest
        · intro D hD
          cases hD
      · rw [if_neg hemp] at h
        cases h
        constructor
        · intro d hd
          dsimp only at hd
          rcases List.mem_append.mp hd with hd | hd
          · rcases List.mem_map.mp hd with ⟨b, hbmem, hb⟩
            rcases hinv.2 b hbmem with ⟨rest, hrest⟩
            rw [← hb, hrest]
            exact hpers rest
          · rcases hinv.1 with ⟨rest, hrest⟩
            rw [List.mem_singleton.mp hd, hrest]
            exact hpers rest
        · intro D hD
          dsimp only at hD
          injection hD with hDval
          rcases hinv.1 with ⟨rest, hrest⟩
          rw [← hDval, hrest]
          exact (hpers rest).1

/-- Witness for C10 at a concrete resumed run: the loaded record with
time 5 is still present in the returned dataset after a fresh page with
time 7 is merged. -/
theorem c10_witness :
    sampleBar 5 ∈ [sampleBar 5, sampleBar 7] :=
  (c10_existing_records_preserved (fun r => r.open_time) c7src [sampleBar 5]
    0 100 10 ⟨some [sampleBar 5, sampleBar 7], [[sampleBar 5, sampleBar 7]],
      [6]⟩ (by decide) (by decide)).2 [sampleBar 5, sampleBar 7] rfl
    (sampleBar 5) (by decide)

/-- Counterexample to C7: resume is not idempotent for every fixed
(deterministic) page source.  This source answers a short page at cursor
0 and a different record at cursor 6 — a cursor the completed first run
never queried — so a second run resuming from the first run's persisted
dataset [5] returns the strictly larger dataset [5, 7]. -/
theorem c7_counterexample :
    (fetchHistorical (fun r : BarRecord => r.open_time) c7src none 0 100
        10).map FetchResult.dataset = some (some [sampleBar 5]) ∧
    (fetchHistorical (fun r : BarRecord => r.open_time) c7src
        (some [sampleBar 5]) 0 100 10).map FetchResult.dataset =
      some (some [sampleBar 5, sampleBar 7]) ∧
    ([sampleBar 5, sampleBar 7] : List BarRecord) ≠ [sampleBar 5] := by
  refine ⟨by decide, by decide, by decide⟩

/-- C7 amended: resume is idempotent for every page source backed by a
static record store with server-side time filtering: if a completed fresh
run against such a source produced dataset D, then any rerun with the
same parameters that resumes from D returns exactly D again (hence equal
after sorting), and D has strictly increasing primary times, so no
duplicates. -/
theorem c7_amended_static_idempotent (t : α → Nat) (S : List α)
    (startDate endDate fuel1 : Nat) (r1 : FetchResult α) (D : List α)
    (h1 : fetchHistorical t (staticSrc t S endDate) none startDate endDate
      fuel1 = some r1)
    (hD : r1.dataset = some D) :
    D.Pairwise (fun a b => t a < t b) ∧
    (∀ fuel2, 0 < fuel2 →
      (fetchHistorical t (staticSrc t S endDate) (some D) startDate endDate
        fuel2).map FetchResult.dataset = some (some D)) := by
  cases hw : walkLoop t (staticSrc t S endDate) endDate fuel1
      (initState t none startDate) [] [] with
  | none =>
      rw [fetchHistorical_none t _ none startDate endDate fuel1 hw] at h1
      cases h1
  | some out =>
      rw [fetchHistorical_some t _ none startDate endDate fuel1 out hw] at h1
      by_cases hemp : out.final.buffer.isEmpty
      · rw [if_pos hemp] at h1
        cases h1
        cases hD
      · rw [if_neg hemp] at h1
        cases h1
        have hDval : D = persistBy t out.final.buffer.flatten := by
          have hD' := hD
          dsimp only at hD'
          injection hD' with hDeq
          exact hDeq.symm
        have hframes := walkLoop_invariant t (staticSrc t S endDate) endDate
          (fun b => ∀ p ∈ b, p ≠ [])
          (by
            intro b page hne hb p hp
            rcases List.mem_append.mp hp with hp | hp
            · exact hb p hp
            · rw [List.mem_singleton.mp hp]
              intro hnil
              rw [hnil] at hne
              exact hne rfl)
          fuel1 _ [] [] out
          (by intro p hp; simp [initState] at hp)
          (by intro b hb; cases hb) hw
        have hbufne : out.final.buffer ≠ [] := by
          intro hnil
          rw [hnil] at hemp
          exact hemp rfl
        have hflatne : out.final.buffer.flatten ≠ [] := by
          intro hnil
          rcases List.exists_mem_of_ne_nil _ hbufne with ⟨p, hp⟩
          exact hframes.1 p hp (List.flatten_eq_nil_iff.mp hnil p hp)
        have hstat := walkLoop_static t S endDate fuel1 _ [] [] out
          (by intro q hq; simp [initState] at hq)
          (by intro hne2; simp [initState] at hne2) hw
        have hcurD : pageMax t D + 1 = out.final.cursor := by
          rw [hDval, pageMax_persistBy, hstat.2.1 hflatne]
        have hpair : D.Pairwise (fun a b => t a < t b) := by
          rw [hDval]
          exact pairwise_lt_persistBy t _
        refine ⟨hpair, ?_⟩
        intro fuel2 hf2
        have hinit2 : initState t (some D) startDate =
            (⟨[D], pageMax t D + 1, 0⟩ : WalkerState α) := rfl
        have hDflat : persistBy t (List.flatten [D]) = D := by
          have hfl : List.flatten [D] = D := by
            simp [List.flatten_cons]
          rw [hfl]
          exact persistBy_eq_self hpair
        by_cases hc2 : pageMax t D + 1 < endDate
        · have hnores : ∀ q ∈ S,
              ¬(pageMax t D + 1 ≤ t q ∧ t q ≤ endDate) := by
            rcases hstat.2.2 with hend | hno
            · intro q hq hcon
              omega
            · intro q hq hcon
              refine hno q hq ⟨?_, hcon.2⟩
              omega
          rcases fuel2 with _ | m
          · omega
          · have hp2 : staticSrc t S endDate (pageMax t D + 1) = none :=
              (staticSrc_none_iff t S endDate _).mpr hnores
            have hw2 : walkLoop t (staticSrc t S endDate) endDate (m + 1)
                (initState t (some D) startDate) [] [] =
                some ⟨initState t (some D) startDate, [],
                  [pageMax t D + 1]⟩ := by
              rw [hinit2]
              exact walkLoop_succ_none t _ endDate m
                ⟨[D], pageMax t D + 1, 0⟩ [] [] hc2 hp2
            rw [fetchHistorical_some t _ (some D) startDate endDate (m + 1)
              _ hw2, if_neg (by rw [hinit2]; exact fun hx => by cases hx)]
            show some (some (persistBy t (List.flatten [D]))) =
              some (some D)
            rw [hDflat]
        · have hnc : ¬(initState t (some D) startDate).cursor < endDate := by
            rw [hinit2]
            dsimp only
            omega
          have hw2 := walkLoop_exit t (staticSrc t S endDate) endDate fuel2
            (initState t (some D) startDate) [] [] hnc
          rw [fetchHistorical_some t _ (some D) startDate endDate fuel2
            _ hw2, if_neg (by rw [hinit2]; exact fun hx => by cases hx)]
          show some (some (persistBy t (List.flatten [D]))) = some (some D)
          rw [hDflat]

/-- Witness for C7 amended at a concrete static store: a completed run
over the store holding one record at time 5 returns [5], and the resumed
rerun returns [5] again. -/
theorem c7_witness :
    (fetchHistorical (fun r : BarRecord => r.open_time)
        (staticSrc (fun r : BarRecord => r.open_time) [sampleBar 5] 100)
        (some [sampleBar 5]) 0 100 3).map FetchResult.dataset =
      some (some [sampleBar 5]) :=
  ((c7_amended_static_idempotent (fun r => r.open_time) [sampleBar 5] 0 100
      5 ⟨some [sampleBar 5], [[sampleBar 5]], [0]⟩ [sampleBar 5]
      (by decide) rfl).2 3 (by decide))

end Fetcher
